import Mathlib

/-!
# Verification of the instaautomation bot state machine

Shallow embedding of `instaautomation.py`: the JSON-backed bot state
(`data`), the Telegram command handlers that mutate it, and the
background worker's scheduled-post and queue-post phases.

Modelling conventions:
* timestamps (Python `datetime`, stored as ISO strings) are `Int`
  (seconds); `datetime.fromisoformat`/`isoformat` round-trips are
  implicit, and comparisons `now >= t` become `t ≤ now`;
* randomness (`random.choice`, `random.randint`) is passed in as
  explicit parameters (an index into the choice list, the drawn
  interval);
* the Instagram upload (`post_to_instagram`) is an oracle `Bool`
  parameter (success/failure); each attempted upload is recorded as an
  `Upload` so theorems can speak about "performs no upload";
* `time.sleep` calls are recorded in a list of slept durations;
* the filesystem is a predicate `fsExists : String → Bool`, and
  attempted `os.remove` calls are returned as a list of paths
  (`os.remove` failures are swallowed by `try/except: pass` in the
  source, so no failure parameter is needed);
* the `autozmode` sub-dictionary of the state is not modelled: no claim
  mentions it and no modelled operation reads or writes it.
-/

/-- `INSTAPOST_SLEEP_AFTER_FAIL = 30` — seconds to wait after a failed IG post. -/
def INSTAPOST_SLEEP_AFTER_FAIL : Int := 30

/-- `PRIORITY_WEIGHT = 3` — priority video appears multiple times in weighted list. -/
def PRIORITY_WEIGHT : Nat := 3

/-- One entry of `data["videos"]`: `{code, path, type}`. -/
structure Video where
  code : String
  path : String
  type : String
deriving DecidableEq, Repr

/-- One entry of `data["scheduled"]`: `{shd_code, video_path, datetime, caption, status}`. -/
structure ScheduledPost where
  shd_code : String
  video_path : String
  datetime : Int
  caption : String
  status : String
deriving DecidableEq, Repr

/-- `data["last_post"]`: `{video_code, time}`. -/
structure LastPost where
  video_code : Option String
  time : Option Int
deriving DecidableEq, Repr

/-- The bot state persisted in `data.json` (minus the unmodelled `autozmode` key). -/
structure BotData where
  caption : String
  interval_min : Int
  interval_max : Int
  videos : List Video
  scheduled : List ScheduledPost
  last_post : LastPost
  is_running : Bool
  next_queue_post_time : Option Int
deriving DecidableEq, Repr

/-- `DEFAULT_DATA` from the source (caption "", intervals 1800/3600, empty lists,
not running, no next queue post time). -/
def DEFAULT_DATA : BotData :=
  { caption := ""
    interval_min := 1800
    interval_max := 3600
    videos := []
    scheduled := []
    last_post := { video_code := none, time := none }
    is_running := false
    next_queue_post_time := none }

/-- An attempted Instagram upload (`post_to_instagram(video_path, caption_text)`). -/
structure Upload where
  path : String
  caption : String
deriving DecidableEq, Repr

/-! ## Code generation (`generate_vid_code` / `generate_shd_code`)

The Python loops start at `n = 1` and return the first `f"vid{n}"`
(resp. `f"shd{n}"`) not among the existing codes.  We model the loop by
`Nat.find` on its exit condition, which requires proving that a fresh
code always exists; that in turn needs injectivity of `Nat.repr`, proved
here via a base-10 decode round-trip. -/

/-- `f"vid{n}"` etc.: string code with a numeric suffix. -/
def codeOf (pre : String) (n : Nat) : String := pre ++ Nat.repr n

/-- Decode a decimal digit character back to its value. -/
def decodeDigitChar (c : Char) : Nat := c.toNat - 48

/-- Fold a digit-character list into the number it denotes, extending `a`. -/
def digitsVal (a : Nat) (cs : List Char) : Nat :=
  cs.foldl (fun x c => 10 * x + decodeDigitChar c) a

lemma digitsVal_cons (a : Nat) (c : Char) (cs : List Char) :
    digitsVal a (c :: cs) = digitsVal (10 * a + decodeDigitChar c) cs := rfl

lemma decode_digitChar : ∀ r : Nat, r < 10 → decodeDigitChar (Nat.digitChar r) = r := by
  decide

lemma toDigitsCore_val :
    ∀ (fuel n : Nat) (ds : List Char), n < 10 ^ fuel →
      digitsVal 0 (Nat.toDigitsCore 10 fuel n ds) = digitsVal n ds := by
  intro fuel
  induction fuel with
  | zero =>
    intro n ds hn
    interval_cases n
    rfl
  | succ fuel ih =>
    intro n ds hn
    by_cases h : n / 10 = 0
    · have hn10 : n < 10 := by omega
      have hstep : Nat.toDigitsCore 10 (fuel + 1) n ds = Nat.digitChar (n % 10) :: ds := by
        simp [Nat.toDigitsCore, h]
      rw [hstep, digitsVal_cons, decode_digitChar (n % 10) (by omega),
        Nat.mod_eq_of_lt hn10]
      norm_num
    · have hstep : Nat.toDigitsCore 10 (fuel + 1) n ds
          = Nat.toDigitsCore 10 fuel (n / 10) (Nat.digitChar (n % 10) :: ds) := by
        simp [Nat.toDigitsCore, h]
      have hlt : n / 10 < 10 ^ fuel := by
        rw [Nat.div_lt_iff_lt_mul (by norm_num : 0 < 10)]
        calc n < 10 ^ (fuel + 1) := hn
          _ = 10 ^ fuel * 10 := by ring
      rw [hstep, ih (n / 10) (Nat.digitChar (n % 10) :: ds) hlt, digitsVal_cons,
        decode_digitChar (n % 10) (Nat.mod_lt n (by norm_num))]
      have : 10 * (n / 10) + n % 10 = n := Nat.div_add_mod n 10
      rw [this]

lemma toDigits_val (n : Nat) : digitsVal 0 (Nat.toDigits 10 n) = n := by
  have hlt : n < 10 ^ (n + 1) :=
    lt_of_lt_of_le (Nat.lt_pow_self (by norm_num) n)
      (Nat.pow_le_pow_right (by norm_num) (Nat.le_succ n))
  have := toDigitsCore_val (n + 1) n [] hlt
  simpa [Nat.toDigits, digitsVal] using this

lemma natRepr_injective : Function.Injective Nat.repr := by
  intro m n h
  have hdata : Nat.toDigits 10 m = Nat.toDigits 10 n := by
    have := congrArg String.data h
    simpa [Nat.repr, List.asString] using this
  have hm := toDigits_val m
  have hn := toDigits_val n
  rw [hdata] at hm
  omega

lemma codeOf_injective (pre : String) : Function.Injective (codeOf pre) := by
  intro m n h
  have hdata := congrArg String.data h
  simp only [codeOf, String.data_append] at hdata
  exact natRepr_injective (String.ext (List.append_cancel_left hdata))

lemma fresh_exists_bounded (pre : String) (existing : List String) :
    ∃ m : Nat, 1 ≤ m ∧ m < existing.length + 2 ∧ codeOf pre m ∉ existing := by
  by_contra hc
  push_neg at hc
  have hall : ∀ i : Fin (existing.length + 1), codeOf pre (i.val + 1) ∈ existing.toFinset := by
    intro i
    rw [List.mem_toFinset]
    exact hc (i.val + 1) (by omega) (by omega)
  have hinj : Set.InjOn (fun i : Fin (existing.length + 1) => codeOf pre (i.val + 1))
      (Finset.univ : Finset (Fin (existing.length + 1))) := by
    intro a _ b _ hab
    have := codeOf_injective pre hab
    exact Fin.ext (by omega)
  have hcard := Finset.card_le_card_of_injOn _ (fun i _ => hall i) hinj
  have hfin : existing.toFinset.card ≤ existing.length := List.toFinset_card_le existing
  simp only [Finset.card_univ, Fintype.card_fin] at hcard
  omega

/-- The Python `while True` loop of `generate_vid_code`/`generate_shd_code`:
starting at `n`, return the first suffix whose code is not in `existing`.
The fuel is only a termination bound; `existing.length + 1` steps always
suffice (see `fresh_exists_bounded`), so the fuel never runs out on the
entry call. -/
def freshNatAux (pre : String) (existing : List String) : Nat → Nat → Nat
  | 0, n => n
  | fuel + 1, n =>
    if codeOf pre n ∈ existing then freshNatAux pre existing fuel (n + 1) else n

/-- Smallest `n ≥ 1` such that `codeOf pre n` is not among `existing`
(the exit value of the Python `while True` loop). -/
def freshNat (pre : String) (existing : List String) : Nat :=
  freshNatAux pre existing (existing.length + 1) 1

lemma freshNatAux_spec (pre : String) (existing : List String) :
    ∀ (fuel n : Nat),
      (∃ m, n ≤ m ∧ m < n + fuel ∧ codeOf pre m ∉ existing) →
      n ≤ freshNatAux pre existing fuel n ∧
      codeOf pre (freshNatAux pre existing fuel n) ∉ existing ∧
      ∀ m, n ≤ m → m < freshNatAux pre existing fuel n → codeOf pre m ∈ existing := by
  intro fuel
  induction fuel with
  | zero =>
    intro n h
    obtain ⟨m, h1, h2, _⟩ := h
    omega
  | succ fuel ih =>
    intro n h
    by_cases hmem : codeOf pre n ∈ existing
    · have hnext : ∃ m, n + 1 ≤ m ∧ m < (n + 1) + fuel ∧ codeOf pre m ∉ existing := by
        obtain ⟨m, h1, h2, h3⟩ := h
        refine ⟨m, ?_, by omega, h3⟩
        rcases Nat.eq_or_lt_of_le h1 with heq | hlt
        · exact absurd (heq ▸ hmem) h3
        · omega
      obtain ⟨hle, hfr, hmin⟩ := ih (n + 1) hnext
      have hstep : freshNatAux pre existing (fuel + 1) n
          = freshNatAux pre existing fuel (n + 1) := by
        simp [freshNatAux, hmem]
      refine ⟨by omega, by rw [hstep]; exact hfr, ?_⟩
      intro m hm1 hm2
      rw [hstep] at hm2
      rcases Nat.eq_or_lt_of_le hm1 with heq | hlt
      · exact heq ▸ hmem
      · exact hmin m (by omega) hm2
    · have hstep : freshNatAux pre existing (fuel + 1) n = n := by
        simp [freshNatAux, hmem]
      rw [hstep]
      exact ⟨Nat.le_refl n, hmem, fun m hm1 hm2 => by omega⟩

/-- `generate_vid_code()`: first fresh `f"vid{n}"`, `n` counting from 1. -/
def generate_vid_code (videos : List Video) : String :=
  codeOf "vid" (freshNat "vid" (videos.map Video.code))

/-- `generate_shd_code()`: first fresh `f"shd{n}"`, `n` counting from 1. -/
def generate_shd_code (scheduled : List ScheduledPost) : String :=
  codeOf "shd" (freshNat "shd" (scheduled.map ScheduledPost.shd_code))

/-- `find_video_by_code(code)`: first video with the given code, else `None`. -/
def find_video_by_code (videos : List Video) (code : String) : Option Video :=
  videos.find? (fun v => v.code == code)

/-- Python `str.strip()`: drop leading and trailing whitespace.  Written by
structural recursion over the character list so that it evaluates on concrete
inputs. -/
def pyStrip (s : String) : String :=
  ⟨((s.data.dropWhile Char.isWhitespace).reverse.dropWhile Char.isWhitespace).reverse⟩

/-! ## Command handlers

Each handler takes the current `BotData` plus whatever external inputs
(`context.args`, parsed datetimes, download success, filesystem state)
the Python handler consumes, and returns the new state plus a `Bool`
"saved" flag (`true` exactly when the Python code reaches `save_data`)
and, where a claim needs it, a reply string or the list of file paths it
passes to `os.remove`. -/

/-- `settimer_cmd`: exactly two args, both parsing as integers with
`min >= 10` and `max >= min`; otherwise reply an error and change nothing.
Python's `int()` is modelled by `String.toInt?`. -/
def settimer_cmd (d : BotData) (args : List String) : BotData × Bool × String :=
  match args with
  | [a, b] =>
    match a.toInt?, b.toInt? with
    | some mn, some mx =>
      if mn < 10 ∨ mx < mn then
        (d, false, "Invalid values. Keep min >= 10 and max >= min.")
      else
        ({ d with interval_min := mn, interval_max := mx }, true,
          "Interval set to " ++ toString mn ++ "-" ++ toString mx ++ " sec.")
    | _, _ => (d, false, "Invalid numbers.")
  | _ => (d, false, "Usage: /settimer <min_seconds> <max_seconds>")

/-- `startposting_cmd`: no-op when already running; otherwise set the run flag
and draw the next queue post time `now + r` where `r` is the value of
`random.randint(interval_min, interval_max)`. -/
def startposting_cmd (d : BotData) (now r : Int) : BotData × Bool × String :=
  if d.is_running then (d, false, "Already running.")
  else
    ({ d with is_running := true, next_queue_post_time := some (now + r) }, true,
      "Auto-posting started.")

/-- `stopposting_cmd`: no-op when not running; otherwise clear the run flag and
the next queue post time. -/
def stopposting_cmd (d : BotData) : BotData × Bool × String :=
  if !d.is_running then (d, false, "Not running.")
  else
    ({ d with is_running := false, next_queue_post_time := none }, true,
      "Auto-posting stopped.")

/-- `setcaption_cmd`: caption text from the joined args, falling back to the raw
message text with the command name stripped; empty text is a usage error. -/
def setcaption_cmd (d : BotData) (args : List String) (msgText : String) :
    BotData × Bool × String :=
  let text := pyStrip (String.intercalate " " args)
  let text := if text = "" ∧ msgText ≠ "" ∧ msgText ≠ "/setcaption" then
      pyStrip (msgText.replace "/setcaption" "")
    else text
  if text = "" then (d, false, "Usage: /setcaption <text>")
  else ({ d with caption := text }, true, "Caption updated.")

/-- `removecaption_cmd`: clear the global caption. -/
def removecaption_cmd (d : BotData) : BotData × Bool × String :=
  ({ d with caption := "" }, true, "Caption removed.")

/-- `remove_cmd`: look up the first video with the given code; if found, attempt
`os.remove` on its path when the file exists (failures swallowed) and drop every
entry with that code; if absent (or no args) reply and change nothing.
Second component: the paths passed to `os.remove`. -/
def remove_cmd (d : BotData) (args : List String) (fsExists : String → Bool) :
    BotData × List String × String :=
  match args with
  | [] => (d, [], "Usage: /remove <vid_code>")
  | a :: _ =>
    let code := pyStrip a
    match find_video_by_code d.videos code with
    | none => (d, [], "Video " ++ code ++ " not found.")
    | some v =>
      let removedFiles := if fsExists v.path then [v.path] else []
      ({ d with videos := d.videos.filter (fun x => x.code != code) }, removedFiles,
        "Removed video " ++ code ++ ".")

/-- `v["type"] = "normal"` mutates the first dict returned by
`find_video_by_code`, i.e. the first list entry with that code. -/
def setFirstNormal : List Video → String → List Video
  | [], _ => []
  | v :: rest, c =>
    if v.code = c then { v with type := "normal" } :: rest
    else v :: setFirstNormal rest c

/-- `removepriority_cmd`: demote the first video with the given code to
type "normal"; not-found (or no args) replies and changes nothing. -/
def removepriority_cmd (d : BotData) (args : List String) : BotData × Bool × String :=
  match args with
  | [] => (d, false, "Usage: /removepriority <vid_code>")
  | a :: _ =>
    let code := pyStrip a
    match find_video_by_code d.videos code with
    | none => (d, false, "Video " ++ code ++ " not found.")
    | some _ =>
      ({ d with videos := setFirstNormal d.videos code }, true, code ++ " is now normal.")

/-- `receive_video_for_add`: on successful download, append a new entry with a
freshly generated code, path `videos/<code>.mp4`, and the pending add type;
a failed download aborts with no state change. -/
def receive_video_for_add (d : BotData) (add_type : String) (downloadOk : Bool) :
    BotData × Bool :=
  if !downloadOk then (d, false)
  else
    let new_code := generate_vid_code d.videos
    let path := "videos/" ++ new_code ++ ".mp4"
    ({ d with videos := d.videos ++ [{ code := new_code, path := path, type := add_type }] },
      true)

/-- `schedule_receive_time`: on a successfully parsed datetime, append a new
scheduled entry with a fresh shd code and status "Pending"; an unparsable
datetime re-prompts and changes nothing (`dtOpt` is `parse_datetime`'s result). -/
def schedule_receive_time (d : BotData) (dtOpt : Option Int)
    (video_path caption : String) : BotData × Bool :=
  match dtOpt with
  | none => (d, false)
  | some dt =>
    let shd_code := generate_shd_code d.scheduled
    ({ d with scheduled := d.scheduled ++
        [{ shd_code := shd_code
           video_path := video_path
           datetime := dt
           caption := caption
           status := "Pending" }] }, true)

/-- `removescheduled_cmd`: like `remove_cmd` but over `data["scheduled"]`. -/
def removescheduled_cmd (d : BotData) (args : List String) (fsExists : String → Bool) :
    BotData × List String × String :=
  match args with
  | [] => (d, [], "Usage: /removescheduled <shd_code>")
  | a :: _ =>
    let code := pyStrip a
    match d.scheduled.find? (fun s => s.shd_code == code) with
    | none => (d, [], "Scheduled " ++ code ++ " not found.")
    | some entry =>
      let removedFiles := if fsExists entry.video_path then [entry.video_path] else []
      ({ d with scheduled := d.scheduled.filter (fun s => s.shd_code != code) },
        removedFiles, "Removed scheduled " ++ code ++ ".")

/-! ## Background worker

`background_worker` alternates two phases per iteration: (1) walk the
scheduled posts, uploading every Pending entry whose time has arrived,
(2) if `is_running` and the next queue post time has elapsed (or is
unset), upload a weighted-random video and reschedule.

Phase 1 iterates over `scheduled_copy = list(data["scheduled"])` — a
shallow copy holding the same dict objects at the same positions, while
`data["scheduled"]`'s structure is untouched within the phase — so it is
modelled as iteration over the indices `List.range length`, reading the
current (possibly status-mutated) entry at each index.  `succ i` is the
result of `post_to_instagram` for the attempt at index `i`, and
`tstamp i` the wall clock when that attempt's success is recorded. -/

/-- The success branch: `for el in data["scheduled"]: if el["shd_code"] == s["shd_code"]:
el["status"] = "Posted"`. -/
def markPosted (code : String) (sch : List ScheduledPost) : List ScheduledPost :=
  sch.map (fun el => if el.shd_code = code then { el with status := "Posted" } else el)

/-- Result of the scheduled-posts phase. -/
structure SchedPhaseResult where
  scheduled : List ScheduledPost
  last_post : LastPost
  uploads : List Upload
  sleeps : List Int
deriving DecidableEq, Repr

/-- The `for s in scheduled_copy` loop of `background_worker`, by index. -/
def schedAux (gcap : String) (now : Int) (succ : Nat → Bool) (tstamp : Nat → Int) :
    List Nat → List ScheduledPost → LastPost → List Upload → List Int → SchedPhaseResult
  | [], sch, lp, ups, sl => ⟨sch, lp, ups, sl⟩
  | i :: rest, sch, lp, ups, sl =>
    match sch[i]? with
    | none => schedAux gcap now succ tstamp rest sch lp ups sl
    | some s =>
      if s.status ≠ "Pending" then schedAux gcap now succ tstamp rest sch lp ups sl
      else if s.datetime ≤ now then
        let cap := if s.caption = "" then gcap else s.caption
        if succ i then
          schedAux gcap now succ tstamp rest (markPosted s.shd_code sch)
            ⟨some s.shd_code, some (tstamp i)⟩ (ups ++ [⟨s.video_path, cap⟩]) sl
        else
          schedAux gcap now succ tstamp rest sch lp (ups ++ [⟨s.video_path, cap⟩])
            (sl ++ [INSTAPOST_SLEEP_AFTER_FAIL])
      else schedAux gcap now succ tstamp rest sch lp ups sl

/-- Phase 1 of one `background_worker` iteration. -/
def schedPhase (d : BotData) (now : Int) (succ : Nat → Bool) (tstamp : Nat → Int) :
    SchedPhaseResult :=
  schedAux d.caption now succ tstamp (List.range d.scheduled.length)
    d.scheduled d.last_post [] []

/-- The multiset `weighted` built by `weighted_random_choice`: each priority
video repeated `PRIORITY_WEIGHT` times, each other video once. -/
def weightedList (videos : List Video) : List Video :=
  videos.flatMap
    (fun v => if v.type = "priority" then List.replicate PRIORITY_WEIGHT v else [v])

/-- `weighted_random_choice(videos)`: `random.choice(weighted)` picks a uniform
index into `weighted`, modelled by the explicit index `pick` (reduced mod the
length); `None` for an empty weighted list. -/
def weighted_random_choice (videos : List Video) (pick : Nat) : Option Video :=
  let weighted := weightedList videos
  if weighted.isEmpty then none else weighted[pick % weighted.length]?

/-- Phase 2 of one `background_worker` iteration (queue posting).  `now` is the
iteration's clock reading, `pick`/`rint` the random draws, `ok` the upload
outcome, and `now2` the clock at the post-upload `datetime.now()` calls (after
the 30 s sleep in the failure branch). -/
def queuePhase (d : BotData) (now : Int) (pick : Nat) (rint : Int) (ok : Bool)
    (now2 : Int) : BotData × List Upload × List Int :=
  if d.is_running then
    let do_post : Bool :=
      match d.next_queue_post_time with
      | some t => decide (t ≤ now)
      | none => true
    if do_post then
      match weighted_random_choice d.videos pick with
      | some chosen =>
        if ok then
          ({ d with
              last_post := ⟨some chosen.code, some now2⟩
              next_queue_post_time := some (now2 + rint) },
            [⟨chosen.path, d.caption⟩], [])
        else
          ({ d with next_queue_post_time := some (now2 + 60) },
            [⟨chosen.path, d.caption⟩], [INSTAPOST_SLEEP_AFTER_FAIL])
      | none => ({ d with next_queue_post_time := some (now2 + 60) }, [], [])
    else (d, [], [])
  else (d, [], [])

/-- One full iteration of the `background_worker` loop body:
scheduled phase, then queue phase. -/
def worker_iteration (d : BotData) (now : Int) (succ : Nat → Bool) (tstamp : Nat → Int)
    (pick : Nat) (rint : Int) (okQueue : Bool) (now2 : Int) :
    BotData × List Upload × List Int :=
  let r := schedPhase d now succ tstamp
  let d1 := { d with scheduled := r.scheduled, last_post := r.last_post }
  let q := queuePhase d1 now pick rint okQueue now2
  (q.1, r.uploads ++ q.2.1, r.sleeps ++ q.2.2)

/-! ## Spec-side notions used in theorem statements -/

/-- Status update applied to an entry when `b` holds. -/
def postedIf (b : Bool) (s : ScheduledPost) : ScheduledPost :=
  if b then { s with status := "Posted" } else s

/-- The worker fires the scheduled entry at index `i` exactly when it is
Pending, its time has arrived, and the upload at `i` succeeds. -/
def triggerB (now : Int) (succ : Nat → Bool) (orig : List ScheduledPost) (i : Nat) : Bool :=
  match orig[i]? with
  | some s => s.status == "Pending" && decide (s.datetime ≤ now) && succ i
  | none => false

/-! ## Shape lemmas: what each handler can do to the state -/

lemma settimer_shape (d : BotData) (args : List String) :
    (settimer_cmd d args).1 = d ∨
      ∃ mn mx : Int, 10 ≤ mn ∧ mn ≤ mx ∧
        (settimer_cmd d args).1 = { d with interval_min := mn, interval_max := mx } := by
  rcases args with _ | ⟨a, _ | ⟨b, _ | ⟨c, t⟩⟩⟩
  · left; rfl
  · left; rfl
  · cases ha : a.toInt? with
    | none => left; simp [settimer_cmd, ha]
    | some mn =>
      cases hb : b.toInt? with
      | none => left; simp [settimer_cmd, ha, hb]
      | some mx =>
        by_cases h : mn < 10 ∨ mx < mn
        · left; simp [settimer_cmd, ha, hb, h]
        · right
          exact ⟨mn, mx, by omega, by omega, by simp [settimer_cmd, ha, hb, h]⟩
  · left; rfl

lemma startposting_shape (d : BotData) (now r : Int) :
    (startposting_cmd d now r).1 = d ∨
      (startposting_cmd d now r).1 =
        { d with is_running := true, next_queue_post_time := some (now + r) } := by
  unfold startposting_cmd
  by_cases h : d.is_running <;> simp [h]

lemma stopposting_shape (d : BotData) :
    (stopposting_cmd d).1 = d ∨
      (stopposting_cmd d).1 =
        { d with is_running := false, next_queue_post_time := none } := by
  unfold stopposting_cmd
  by_cases h : d.is_running <;> simp [h]

lemma setcaption_shape (d : BotData) (args : List String) (msgText : String) :
    (setcaption_cmd d args msgText).1 = d ∨
      ∃ t, (setcaption_cmd d args msgText).1 = { d with caption := t } := by
  simp only [setcaption_cmd]
  split
  all_goals split
  all_goals first
    | (left; rfl)
    | (right; exact ⟨_, rfl⟩)

lemma removecaption_shape (d : BotData) :
    (removecaption_cmd d).1 = { d with caption := "" } := rfl

lemma remove_shape (d : BotData) (args : List String) (fsExists : String → Bool) :
    (remove_cmd d args fsExists).1 = d ∨
      ∃ c, (remove_cmd d args fsExists).1 =
        { d with videos := d.videos.filter (fun x => x.code != c) } := by
  simp only [remove_cmd]
  split
  · left; rfl
  · split
    · left; rfl
    · right; exact ⟨_, rfl⟩

lemma removepriority_shape (d : BotData) (args : List String) :
    (removepriority_cmd d args).1 = d ∨
      ∃ c, (removepriority_cmd d args).1 =
        { d with videos := setFirstNormal d.videos c } := by
  simp only [removepriority_cmd]
  split
  · left; rfl
  · split
    · left; rfl
    · right; exact ⟨_, rfl⟩

lemma receive_video_shape (d : BotData) (add_type : String) (downloadOk : Bool) :
    (receive_video_for_add d add_type downloadOk).1 = d ∨
      ∃ e, (receive_video_for_add d add_type downloadOk).1 =
        { d with videos := d.videos ++ [e] } := by
  unfold receive_video_for_add
  by_cases h : downloadOk
  · right; simp [h]
  · left; simp [h]

lemma schedule_time_shape (d : BotData) (dtOpt : Option Int) (vp cap : String) :
    (schedule_receive_time d dtOpt vp cap).1 = d ∨
      ∃ e : ScheduledPost, e.status = "Pending" ∧
        (schedule_receive_time d dtOpt vp cap).1 = { d with scheduled := d.scheduled ++ [e] } := by
  unfold schedule_receive_time
  cases dtOpt with
  | none => left; rfl
  | some dt => right; exact ⟨_, rfl, rfl⟩

lemma removescheduled_shape (d : BotData) (args : List String) (fsExists : String → Bool) :
    (removescheduled_cmd d args fsExists).1 = d ∨
      ∃ c, (removescheduled_cmd d args fsExists).1 =
        { d with scheduled := d.scheduled.filter (fun s => s.shd_code != c) } := by
  simp only [removescheduled_cmd]
  split
  · left; rfl
  · split
    · left; rfl
    · right; exact ⟨_, rfl⟩

/-! ## Worker lemmas -/

lemma postedIf_false (s : ScheduledPost) : postedIf false s = s := rfl

lemma postedIf_shd_code (b : Bool) (s : ScheduledPost) :
    (postedIf b s).shd_code = s.shd_code := by cases b <;> simp [postedIf]

lemma markPosted_length (code : String) (sch : List ScheduledPost) :
    (markPosted code sch).length = sch.length := by simp [markPosted]

lemma markPosted_getElem (code : String) (sch : List ScheduledPost) (j : Nat) :
    (markPosted code sch)[j]? = (sch[j]?).map
      (fun el => if el.shd_code = code then { el with status := "Posted" } else el) := by
  simp [markPosted]

lemma markPosted_mem (code : String) (sch : List ScheduledPost) :
    ∀ s2 ∈ markPosted code sch, ∃ el ∈ sch,
      s2 = el ∨ s2 = { el with status := "Posted" } := by
  intro s2 h2
  simp only [markPosted, List.mem_map] at h2
  obtain ⟨el, hel, heq⟩ := h2
  refine ⟨el, hel, ?_⟩
  by_cases hc : el.shd_code = code
  · right; rw [← heq]; simp [hc]
  · left; rw [← heq]; simp [hc]

lemma schedAux_length (gcap : String) (now : Int) (succ : Nat → Bool) (tstamp : Nat → Int) :
    ∀ (is : List Nat) (sch : List ScheduledPost) (lp : LastPost) (ups : List Upload)
      (sl : List Int),
      (schedAux gcap now succ tstamp is sch lp ups sl).scheduled.length = sch.length := by
  intro is
  induction is with
  | nil => intro sch lp ups sl; rfl
  | cons i rest ih =>
    intro sch lp ups sl
    simp only [schedAux]
    cases h : sch[i]? with
    | none => exact ih sch lp ups sl
    | some s =>
      by_cases hp : s.status = "Pending"
      · by_cases hd : s.datetime ≤ now
        · by_cases hs : succ i
          · simpa [hp, hd, hs, markPosted_length] using
              ih (markPosted s.shd_code sch) ⟨some s.shd_code, some (tstamp i)⟩ _ sl
          · simpa [hp, hd, hs] using ih sch lp _ _
        · simpa [hp, hd] using ih sch lp ups sl
      · simpa [hp] using ih sch lp ups sl

lemma schedAux_no_success (gcap : String) (now : Int) (succ : Nat → Bool)
    (tstamp : Nat → Int) (hfail : ∀ i, succ i = false) :
    ∀ (is : List Nat) (sch : List ScheduledPost) (lp : LastPost) (ups : List Upload)
      (sl : List Int),
      ∃ newUps,
        (schedAux gcap now succ tstamp is sch lp ups sl).scheduled = sch ∧
        (schedAux gcap now succ tstamp is sch lp ups sl).last_post = lp ∧
        (schedAux gcap now succ tstamp is sch lp ups sl).uploads = ups ++ newUps ∧
        (schedAux gcap now succ tstamp is sch lp ups sl).sleeps =
          sl ++ List.replicate newUps.length INSTAPOST_SLEEP_AFTER_FAIL := by
  intro is
  induction is with
  | nil => intro sch lp ups sl; exact ⟨[], rfl, rfl, by simp [schedAux], by simp [schedAux]⟩
  | cons i rest ih =>
    intro sch lp ups sl
    simp only [schedAux]
    cases h : sch[i]? with
    | none => exact ih sch lp ups sl
    | some s =>
      by_cases hp : s.status = "Pending"
      · by_cases hd : s.datetime ≤ now
        · obtain ⟨nu, h1, h2, h3, h4⟩ := ih sch lp
            (ups ++ [⟨s.video_path, if s.caption = "" then gcap else s.caption⟩])
            (sl ++ [INSTAPOST_SLEEP_AFTER_FAIL])
          refine ⟨⟨s.video_path, if s.caption = "" then gcap else s.caption⟩ :: nu, ?_⟩
          simp only [hp, hd, hfail i, if_neg, if_pos, Bool.false_eq_true, ite_false,
            ite_true, ne_eq, not_true_eq_false]
          constructor
          · simpa [hp, hd, hfail i] using h1
          constructor
          · simpa [hp, hd, hfail i] using h2
          constructor
          · rw [show (schedAux gcap now succ tstamp rest sch lp
              (ups ++ [⟨s.video_path, if s.caption = "" then gcap else s.caption⟩])
              (sl ++ [INSTAPOST_SLEEP_AFTER_FAIL])).uploads = _ from h3]
            simp
          · rw [show (schedAux gcap now succ tstamp rest sch lp
              (ups ++ [⟨s.video_path, if s.caption = "" then gcap else s.caption⟩])
              (sl ++ [INSTAPOST_SLEEP_AFTER_FAIL])).sleeps = _ from h4]
            simp [List.replicate_succ]
        · simpa [hp, hd] using ih sch lp ups sl
      · simpa [hp] using ih sch lp ups sl

lemma markPosted_invariant (code : String) (orig sch : List ScheduledPost)
    (horig : ∀ s2 ∈ sch, ∃ s ∈ orig, s2 = s ∨ s2 = { s with status := "Posted" }) :
    ∀ s2 ∈ markPosted code sch, ∃ s ∈ orig,
      s2 = s ∨ s2 = { s with status := "Posted" } := by
  intro s2 h2
  obtain ⟨el, hel, hcase⟩ := markPosted_mem code sch s2 h2
  obtain ⟨t, ht, hcase2⟩ := horig el hel
  rcases hcase with h1 | h1 <;> rcases hcase2 with h2 | h2
  · exact ⟨t, ht, Or.inl (h1.trans h2)⟩
  · exact ⟨t, ht, Or.inr (h1.trans h2)⟩
  · exact ⟨t, ht, Or.inr (by rw [h1, h2])⟩
  · refine ⟨t, ht, Or.inr ?_⟩
    rw [h1, h2]

lemma schedAux_uploads (gcap : String) (now : Int) (succ : Nat → Bool)
    (tstamp : Nat → Int) (orig : List ScheduledPost) :
    ∀ (is : List Nat) (sch : List ScheduledPost) (lp : LastPost) (ups : List Upload)
      (sl : List Int),
      (∀ s2 ∈ sch, ∃ s ∈ orig, s2 = s ∨ s2 = { s with status := "Posted" }) →
      ∀ u ∈ (schedAux gcap now succ tstamp is sch lp ups sl).uploads,
        u ∈ ups ∨ ∃ s ∈ orig, s.status = "Pending" ∧ s.datetime ≤ now ∧
          u = ⟨s.video_path, if s.caption = "" then gcap else s.caption⟩ := by
  intro is
  induction is with
  | nil =>
    intro sch lp ups sl _ u hu
    exact Or.inl hu
  | cons i rest ih =>
    intro sch lp ups sl horig u hu
    cases h : sch[i]? with
    | none =>
      simp only [schedAux, h] at hu
      exact ih sch lp ups sl horig u hu
    | some s =>
      by_cases hp : s.status = "Pending"
      · by_cases hd : s.datetime ≤ now
        · have hsmem : s ∈ sch := List.getElem?_mem h
          obtain ⟨t, ht, hc⟩ := horig s hsmem
          have hst : s = t := by
            rcases hc with h1 | h1
            · exact h1
            · exfalso
              rw [h1] at hp
              simp at hp
          have hnew : ∀ w : Upload,
              w ∈ ups ++ [(⟨s.video_path, if s.caption = "" then gcap else s.caption⟩ : Upload)] →
              w ∈ ups ∨ ∃ t2 ∈ orig, t2.status = "Pending" ∧ t2.datetime ≤ now ∧
                w = ⟨t2.video_path, if t2.caption = "" then gcap else t2.caption⟩ := by
            intro w hw
            rcases List.mem_append.mp hw with hl | hr
            · exact Or.inl hl
            · right
              refine ⟨t, ht, ?_, ?_, ?_⟩
              · rw [← hst]; exact hp
              · rw [← hst]; exact hd
              · rw [← hst]; exact List.mem_singleton.mp hr
          by_cases hs : succ i
          · simp [schedAux, h, hp, hd, hs] at hu
            have hinv := markPosted_invariant s.shd_code orig sch horig
            rcases ih (markPosted s.shd_code sch) ⟨some s.shd_code, some (tstamp i)⟩
                (ups ++ [⟨s.video_path, if s.caption = "" then gcap else s.caption⟩]) sl
                hinv u hu with hin | hex
            · exact hnew u hin
            · exact Or.inr hex
          · simp [schedAux, h, hp, hd, hs] at hu
            rcases ih sch lp
                (ups ++ [⟨s.video_path, if s.caption = "" then gcap else s.caption⟩])
                (sl ++ [INSTAPOST_SLEEP_AFTER_FAIL]) horig u hu with hin | hex
            · exact hnew u hin
            · exact Or.inr hex
        · simp [schedAux, h, hp, hd] at hu
          exact ih sch lp ups sl horig u hu
      · simp [schedAux, h, hp] at hu
        exact ih sch lp ups sl horig u hu

lemma getElem?_some_lt {α : Type} (l : List α) (n : Nat) (a : α)
    (h : l[n]? = some a) : n < l.length := by
  by_contra hn
  rw [List.getElem?_eq_none (by omega)] at h
  exact Option.noConfusion h

lemma nodup_codes_ne (orig : List ScheduledPost)
    (hnodup : (orig.map ScheduledPost.shd_code).Nodup)
    (i j : Nat) (si sj : ScheduledPost)
    (hi : orig[i]? = some si) (hj : orig[j]? = some sj) (hij : i ≠ j) :
    si.shd_code ≠ sj.shd_code := by
  intro heq
  have hilt : i < orig.length := getElem?_some_lt orig i si hi
  have hjlt : j < orig.length := getElem?_some_lt orig j sj hj
  have hsi : orig[i] = si := by
    have h2 := List.getElem?_eq_getElem hilt
    rw [h2] at hi
    exact Option.some.inj hi
  have hsj : orig[j] = sj := by
    have h2 := List.getElem?_eq_getElem hjlt
    rw [h2] at hj
    exact Option.some.inj hj
  have hilt2 : i < (orig.map ScheduledPost.shd_code).length := by simpa using hilt
  have hjlt2 : j < (orig.map ScheduledPost.shd_code).length := by simpa using hjlt
  have hmap : (orig.map ScheduledPost.shd_code)[i] = (orig.map ScheduledPost.shd_code)[j] := by
    simp only [List.getElem_map]
    rw [hsi, hsj, heq]
  exact hij ((List.Nodup.getElem_inj_iff hnodup).mp hmap)

lemma schedAux_characterization (gcap : String) (now : Int) (succ : Nat → Bool)
    (tstamp : Nat → Int) (orig : List ScheduledPost)
    (hnodup : (orig.map ScheduledPost.shd_code).Nodup) :
    ∀ (m k : Nat) (sch : List ScheduledPost) (lp : LastPost) (ups : List Upload)
      (sl : List Int),
      k + m = orig.length →
      (∀ (j : Nat) (s : ScheduledPost), orig[j]? = some s →
        sch[j]? = some (postedIf (decide (j < k) && triggerB now succ orig j) s)) →
      ∀ (j : Nat) (s : ScheduledPost), orig[j]? = some s →
        (schedAux gcap now succ tstamp (List.range' k m) sch lp ups sl).scheduled[j]? =
          some (postedIf (triggerB now succ orig j) s) := by
  intro m
  induction m with
  | zero =>
    intro k sch lp ups sl hk hinv j s hjs
    have hjlt : j < orig.length := getElem?_some_lt orig j s hjs
    have hr : List.range' k 0 = [] := rfl
    rw [hr]
    have := hinv j s hjs
    simpa [schedAux, show j < k by omega] using this
  | succ m ih =>
    intro k sch lp ups sl hk hinv j s hjs
    have hklen : k < orig.length := by omega
    obtain ⟨s0, hok⟩ : ∃ s0, orig[k]? = some s0 :=
      ⟨orig.get ⟨k, hklen⟩, by simp [List.getElem?_eq_getElem hklen]⟩
    have hs0 : sch[k]? = some s0 := by
      simpa [show ¬(k < k) by omega, postedIf] using hinv k s0 hok
    have htrigk : triggerB now succ orig k =
        (s0.status == "Pending" && decide (s0.datetime ≤ now) && succ k) := by
      simp [triggerB, hok]
    have hdeceq : ∀ j2 : Nat, j2 ≠ k → decide (j2 < k + 1) = decide (j2 < k) := by
      intro j2 hne
      simp only [decide_eq_decide]
      omega
    rw [List.range'_succ]
    simp only [schedAux, hs0]
    by_cases hp : s0.status = "Pending"
    · by_cases hd : s0.datetime ≤ now
      · by_cases hs : succ k
        · rw [if_neg (not_not_intro hp), if_pos hd, if_pos hs]
          have htrig1 : triggerB now succ orig k = true := by
            simp [htrigk, hp, hd, hs]
          have hinv2 : ∀ (j2 : Nat) (s2 : ScheduledPost), orig[j2]? = some s2 →
              (markPosted s0.shd_code sch)[j2]? =
                some (postedIf (decide (j2 < k + 1) && triggerB now succ orig j2) s2) := by
            intro j2 s2 hj2
            rw [markPosted_getElem, hinv j2 s2 hj2]
            by_cases hjk : j2 = k
            · subst hjk
              have hs2 : s2 = s0 := by
                rw [hok] at hj2
                exact Option.some.inj hj2.symm
              subst hs2
              simp [show ¬(j2 < j2) by omega, postedIf, htrig1]
            · have hne := nodup_codes_ne orig hnodup j2 k s2 s0 hj2 hok hjk
              have hcode : (postedIf (decide (j2 < k) && triggerB now succ orig j2)
                  s2).shd_code ≠ s0.shd_code := by
                rw [postedIf_shd_code]
                exact hne
              rw [hdeceq j2 hjk, Option.map_some']
              simp [hcode]
          exact ih (k + 1) (markPosted s0.shd_code sch)
            ⟨some s0.shd_code, some (tstamp k)⟩
            (ups ++ [⟨s0.video_path, if s0.caption = "" then gcap else s0.caption⟩]) sl
            (by omega) hinv2 j s hjs
        · rw [if_neg (not_not_intro hp), if_pos hd, if_neg hs]
          have htrig0 : triggerB now succ orig k = false := by
            simp [htrigk, hs]
          have hinv2 : ∀ (j2 : Nat) (s2 : ScheduledPost), orig[j2]? = some s2 →
              sch[j2]? = some (postedIf (decide (j2 < k + 1) && triggerB now succ orig j2)
                s2) := by
            intro j2 s2 hj2
            by_cases hjk : j2 = k
            · subst hjk
              have hs2 : s2 = s0 := by
                rw [hok] at hj2
                exact Option.some.inj hj2.symm
              subst hs2
              rw [hs0]
              simp [postedIf, htrig0]
            · rw [hinv j2 s2 hj2, hdeceq j2 hjk]
          exact ih (k + 1) sch lp
            (ups ++ [⟨s0.video_path, if s0.caption = "" then gcap else s0.caption⟩])
            (sl ++ [INSTAPOST_SLEEP_AFTER_FAIL]) (by omega) hinv2 j s hjs
      · rw [if_neg (not_not_intro hp), if_neg hd]
        have htrig0 : triggerB now succ orig k = false := by
          simp [htrigk, hd]
        have hinv2 : ∀ (j2 : Nat) (s2 : ScheduledPost), orig[j2]? = some s2 →
            sch[j2]? = some (postedIf (decide (j2 < k + 1) && triggerB now succ orig j2)
              s2) := by
          intro j2 s2 hj2
          by_cases hjk : j2 = k
          · subst hjk
            have hs2 : s2 = s0 := by
              rw [hok] at hj2
              exact Option.some.inj hj2.symm
            subst hs2
            rw [hs0]
            simp [postedIf, htrig0]
          · rw [hinv j2 s2 hj2, hdeceq j2 hjk]
        exact ih (k + 1) sch lp ups sl (by omega) hinv2 j s hjs
    · rw [if_pos hp]
      have htrig0 : triggerB now succ orig k = false := by
        simp [htrigk, hp]
      have hinv2 : ∀ (j2 : Nat) (s2 : ScheduledPost), orig[j2]? = some s2 →
          sch[j2]? = some (postedIf (decide (j2 < k + 1) && triggerB now succ orig j2)
            s2) := by
        intro j2 s2 hj2
        by_cases hjk : j2 = k
        · subst hjk
          have hs2 : s2 = s0 := by
            rw [hok] at hj2
            exact Option.some.inj hj2.symm
          subst hs2
          rw [hs0]
          simp [postedIf, htrig0]
        · rw [hinv j2 s2 hj2, hdeceq j2 hjk]
      exact ih (k + 1) sch lp ups sl (by omega) hinv2 j s hjs

lemma schedPhase_getElem (d : BotData) (now : Int) (succ : Nat → Bool) (tstamp : Nat → Int)
    (hnodup : (d.scheduled.map ScheduledPost.shd_code).Nodup)
    (j : Nat) (s : ScheduledPost) (hjs : d.scheduled[j]? = some s) :
    (schedPhase d now succ tstamp).scheduled[j]? =
      some (postedIf (triggerB now succ d.scheduled j) s) := by
  unfold schedPhase
  rw [List.range_eq_range']
  exact schedAux_characterization d.caption now succ tstamp d.scheduled hnodup
    d.scheduled.length 0 d.scheduled d.last_post [] [] (by omega)
    (fun j2 s2 hj2 => by simpa [postedIf] using hj2) j s hjs

/-! ## Weighted choice lemmas -/

lemma weightedList_count (videos : List Video) (v : Video) :
    (weightedList videos).count v =
      (if v.type = "priority" then PRIORITY_WEIGHT else 1) * videos.count v := by
  induction videos with
  | nil => simp [weightedList]
  | cons x xs ih =>
    rw [weightedList, List.flatMap_cons, List.count_append, ← weightedList, ih]
    by_cases hv : v = x
    · subst hv
      by_cases hx : v.type = "priority"
      · simp [hx, List.count_replicate, List.count_cons]
        ring
      · simp [hx, List.count_cons]
        omega
    · have hbeq : (v == x) = false := by simp [hv]
      have hvx : ¬x = v := fun h2 => hv h2.symm
      by_cases hx : x.type = "priority"
      · simp [hx, List.count_replicate, hbeq, hvx, List.count_cons]
      · simp [hx, List.count_cons, hbeq, hvx]

lemma weightedList_mem (videos : List Video) (v : Video) :
    v ∈ weightedList videos ↔ v ∈ videos := by
  simp only [weightedList, List.mem_flatMap]
  constructor
  · rintro ⟨x, hx, hv⟩
    by_cases hp : x.type = "priority"
    · rw [if_pos hp] at hv
      rw [List.eq_of_mem_replicate hv]
      exact hx
    · rw [if_neg hp] at hv
      rw [List.mem_singleton.mp hv]
      exact hx
  · intro hv
    refine ⟨v, hv, ?_⟩
    by_cases hp : v.type = "priority"
    · rw [if_pos hp]
      exact List.mem_replicate.mpr ⟨by simp [PRIORITY_WEIGHT], rfl⟩
    · rw [if_neg hp]
      exact List.mem_singleton.mpr rfl

lemma weightedList_ne_nil (videos : List Video) (h : videos ≠ []) :
    weightedList videos ≠ [] := by
  cases videos with
  | nil => exact absurd rfl h
  | cons x xs =>
    intro h2
    have hx : x ∈ weightedList (x :: xs) := (weightedList_mem (x :: xs) x).mpr (by simp)
    rw [h2] at hx
    exact (List.not_mem_nil x) hx

/-! ## Fresh code lemmas -/

lemma freshNat_pos_and_fresh (pre : String) (existing : List String) :
    0 < freshNat pre existing ∧ codeOf pre (freshNat pre existing) ∉ existing := by
  obtain ⟨m, h1, h2, h3⟩ := fresh_exists_bounded pre existing
  obtain ⟨hle, hfr, _⟩ := freshNatAux_spec pre existing (existing.length + 1) 1
    ⟨m, h1, by omega, h3⟩
  unfold freshNat
  exact ⟨by omega, hfr⟩

lemma freshNat_min (pre : String) (existing : List String) (m : Nat)
    (h0 : 0 < m) (hm : m < freshNat pre existing) : codeOf pre m ∈ existing := by
  obtain ⟨m2, h1, h2, h3⟩ := fresh_exists_bounded pre existing
  obtain ⟨_, _, hmin⟩ := freshNatAux_spec pre existing (existing.length + 1) 1
    ⟨m2, h1, by omega, h3⟩
  unfold freshNat at hm
  exact hmin m (by omega) hm

/-! ## Queue phase field preservation -/

lemma queuePhase_fields (d : BotData) (now : Int) (pick : Nat) (rint : Int) (ok : Bool)
    (now2 : Int) :
    (queuePhase d now pick rint ok now2).1.interval_min = d.interval_min ∧
    (queuePhase d now pick rint ok now2).1.interval_max = d.interval_max ∧
    (queuePhase d now pick rint ok now2).1.scheduled = d.scheduled ∧
    (queuePhase d now pick rint ok now2).1.videos = d.videos ∧
    (queuePhase d now pick rint ok now2).1.caption = d.caption := by
  unfold queuePhase
  refine ⟨?_, ?_, ?_, ?_, ?_⟩ <;> (repeat' split) <;> dsimp only <;> split_ifs <;> simp

/-! ## Claim theorems -/

/-- C1: for every state with `is_running = false` the worker's queue-posting
branch performs no upload and returns the state unchanged (so `last_post` and
`next_queue_post_time` are untouched); and `stopposting_cmd` on a running
state leaves `is_running` false and `next_queue_post_time` `None`. -/
theorem C1_queue_posting_gated_by_run_flag (d e : BotData) (now : Int) (pick : Nat)
    (rint : Int) (ok : Bool) (now2 : Int)
    (hd : d.is_running = false) (he : e.is_running = true) :
    queuePhase d now pick rint ok now2 = (d, [], []) ∧
    (stopposting_cmd e).1.is_running = false ∧
    (stopposting_cmd e).1.next_queue_post_time = none := by
  refine ⟨?_, ?_, ?_⟩
  · simp [queuePhase, hd]
  · simp [stopposting_cmd, he]
  · simp [stopposting_cmd, he]

/-- Witness for C1: the default (stopped) state, and the default state with the
run flag set. -/
theorem C1_queue_posting_gated_by_run_flag_witness :
    queuePhase DEFAULT_DATA 0 0 0 true 0 = (DEFAULT_DATA, [], []) ∧
    (stopposting_cmd { DEFAULT_DATA with is_running := true }).1.is_running = false ∧
    (stopposting_cmd { DEFAULT_DATA with is_running := true }).1.next_queue_post_time
      = none :=
  C1_queue_posting_gated_by_run_flag DEFAULT_DATA
    { DEFAULT_DATA with is_running := true } 0 0 0 true 0 rfl rfl

/-- C10: `startposting_cmd` on an already-running state and `stopposting_cmd`
on an already-stopped state return early with the state entirely unchanged
(no save, no re-randomisation of `next_queue_post_time`), hence both commands
are idempotent. -/
theorem C10_start_stop_noop_on_same_flag (d e : BotData) (now r : Int)
    (hd : d.is_running = true) (he : e.is_running = false) :
    startposting_cmd d now r = (d, false, "Already running.") ∧
    stopposting_cmd e = (e, false, "Not running.") := by
  constructor
  · simp [startposting_cmd, hd]
  · simp [stopposting_cmd, he]

/-- Witness for C10 at concrete running/stopped states. -/
theorem C10_start_stop_noop_on_same_flag_witness :
    startposting_cmd { DEFAULT_DATA with is_running := true } 0 0 =
      ({ DEFAULT_DATA with is_running := true }, false, "Already running.") ∧
    stopposting_cmd DEFAULT_DATA = (DEFAULT_DATA, false, "Not running.") :=
  C10_start_stop_noop_on_same_flag { DEFAULT_DATA with is_running := true }
    DEFAULT_DATA 0 0 rfl rfl

/-- The validity condition of `/settimer` arguments: exactly two strings, both
parsing as integers, with `10 ≤ min` and `min ≤ max`. -/
def validTimerArgs (args : List String) : Bool :=
  match args with
  | [a, b] =>
    match a.toInt?, b.toInt? with
    | some mn, some mx => decide (10 ≤ mn ∧ mn ≤ mx)
    | _, _ => false
  | _ => false

/-- C8: on any argument list that is not exactly two integers with
`min ≥ 10` and `max ≥ min`, `settimer_cmd` leaves the state unchanged,
does not save, and replies with one of its error messages. -/
theorem C8_settimer_atomic_on_invalid (d : BotData) (args : List String)
    (h : validTimerArgs args = false) :
    (settimer_cmd d args).1 = d ∧ (settimer_cmd d args).2.1 = false ∧
    ((settimer_cmd d args).2.2 = "Usage: /settimer <min_seconds> <max_seconds>" ∨
      (settimer_cmd d args).2.2 = "Invalid values. Keep min >= 10 and max >= min." ∨
      (settimer_cmd d args).2.2 = "Invalid numbers.") := by
  rcases args with _ | ⟨a, _ | ⟨b, _ | ⟨c, t⟩⟩⟩
  · exact ⟨rfl, rfl, Or.inl rfl⟩
  · exact ⟨rfl, rfl, Or.inl rfl⟩
  · cases ha : a.toInt? with
    | none =>
      refine ⟨?_, ?_, Or.inr (Or.inr ?_)⟩ <;> simp [settimer_cmd, ha]
    | some mn =>
      cases hb : b.toInt? with
      | none =>
        refine ⟨?_, ?_, Or.inr (Or.inr ?_)⟩ <;> simp [settimer_cmd, ha, hb]
      | some mx =>
        have hcond : mn < 10 ∨ mx < mn := by
          simp only [validTimerArgs, ha, hb, decide_eq_false_iff_not] at h
          omega
        refine ⟨?_, ?_, Or.inr (Or.inl ?_)⟩ <;> simp [settimer_cmd, ha, hb, hcond]
  · exact ⟨rfl, rfl, Or.inl rfl⟩

/-- Witness for C8: `/settimer 5` (wrong arity) is rejected without touching
the state. -/
theorem C8_settimer_atomic_on_invalid_witness :
    validTimerArgs ["5"] = false ∧
    (settimer_cmd DEFAULT_DATA ["5"]).1 = DEFAULT_DATA ∧
    (settimer_cmd DEFAULT_DATA ["5"]).2.1 = false := by
  have h : validTimerArgs ["5"] = false := rfl
  have h2 := C8_settimer_atomic_on_invalid DEFAULT_DATA ["5"] h
  exact ⟨h, h2.1, h2.2.1⟩

/-- C4: `interval_min ≤ interval_max` holds in `DEFAULT_DATA` (1800 ≤ 3600)
and is preserved by `settimer_cmd` (which only writes the intervals when the
parsed arguments satisfy `min ≥ 10` and `max ≥ min`), while every other
operation — including the background worker — leaves `interval_min` and
`interval_max` exactly as they were. -/
theorem C4_interval_invariant (d : BotData) (args : List String) (msgText : String)
    (now r : Int) (fsExists : String → Bool) (add_type : String) (downloadOk : Bool)
    (dtOpt : Option Int) (vp cap : String) (succ : Nat → Bool) (tstamp : Nat → Int)
    (pick : Nat) (rint : Int) (ok : Bool) (now2 : Int)
    (h : d.interval_min ≤ d.interval_max) :
    DEFAULT_DATA.interval_min ≤ DEFAULT_DATA.interval_max ∧
    (settimer_cmd d args).1.interval_min ≤ (settimer_cmd d args).1.interval_max ∧
    ((startposting_cmd d now r).1.interval_min = d.interval_min ∧
      (startposting_cmd d now r).1.interval_max = d.interval_max) ∧
    ((stopposting_cmd d).1.interval_min = d.interval_min ∧
      (stopposting_cmd d).1.interval_max = d.interval_max) ∧
    ((setcaption_cmd d args msgText).1.interval_min = d.interval_min ∧
      (setcaption_cmd d args msgText).1.interval_max = d.interval_max) ∧
    ((removecaption_cmd d).1.interval_min = d.interval_min ∧
      (removecaption_cmd d).1.interval_max = d.interval_max) ∧
    ((remove_cmd d args fsExists).1.interval_min = d.interval_min ∧
      (remove_cmd d args fsExists).1.interval_max = d.interval_max) ∧
    ((removepriority_cmd d args).1.interval_min = d.interval_min ∧
      (removepriority_cmd d args).1.interval_max = d.interval_max) ∧
    ((receive_video_for_add d add_type downloadOk).1.interval_min = d.interval_min ∧
      (receive_video_for_add d add_type downloadOk).1.interval_max = d.interval_max) ∧
    ((schedule_receive_time d dtOpt vp cap).1.interval_min = d.interval_min ∧
      (schedule_receive_time d dtOpt vp cap).1.interval_max = d.interval_max) ∧
    ((removescheduled_cmd d args fsExists).1.interval_min = d.interval_min ∧
      (removescheduled_cmd d args fsExists).1.interval_max = d.interval_max) ∧
    ((worker_iteration d now succ tstamp pick rint ok now2).1.interval_min
        = d.interval_min ∧
      (worker_iteration d now succ tstamp pick rint ok now2).1.interval_max
        = d.interval_max) := by
  refine ⟨by simp [DEFAULT_DATA], ?_, ?_, ?_, ?_, ?_, ?_, ?_, ?_, ?_, ?_, ?_⟩
  · rcases settimer_shape d args with h1 | ⟨mn, mx, h10, hmn, h1⟩
    · rw [h1]; exact h
    · rw [h1]; simpa using hmn
  · rcases startposting_shape d now r with h1 | h1 <;> rw [h1] <;> simp
  · rcases stopposting_shape d with h1 | h1 <;> rw [h1] <;> simp
  · rcases setcaption_shape d args msgText with h1 | ⟨t, h1⟩ <;> rw [h1] <;> simp
  · rw [removecaption_shape d]; simp
  · rcases remove_shape d args fsExists with h1 | ⟨c, h1⟩ <;> rw [h1] <;> simp
  · rcases removepriority_shape d args with h1 | ⟨c, h1⟩ <;> rw [h1] <;> simp
  · rcases receive_video_shape d add_type downloadOk with h1 | ⟨e, h1⟩ <;>
      rw [h1] <;> simp
  · rcases schedule_time_shape d dtOpt vp cap with h1 | ⟨e, _, h1⟩ <;> rw [h1] <;> simp
  · rcases removescheduled_shape d args fsExists with h1 | ⟨c, h1⟩ <;> rw [h1] <;> simp
  · have hq := queuePhase_fields
      { d with scheduled := (schedPhase d now succ tstamp).scheduled,
               last_post := (schedPhase d now succ tstamp).last_post }
      now pick rint ok now2
    constructor
    · show (worker_iteration d now succ tstamp pick rint ok now2).1.interval_min
        = d.interval_min
      unfold worker_iteration
      dsimp only
      rw [hq.1]
    · show (worker_iteration d now succ tstamp pick rint ok now2).1.interval_max
        = d.interval_max
      unfold worker_iteration
      dsimp only
      rw [hq.2.1]

/-- Witness for C4 at the default state and concrete inputs. -/
theorem C4_interval_invariant_witness :
    DEFAULT_DATA.interval_min ≤ DEFAULT_DATA.interval_max ∧
    (settimer_cmd DEFAULT_DATA []).1.interval_min ≤
      (settimer_cmd DEFAULT_DATA []).1.interval_max := by
  have h2 := C4_interval_invariant DEFAULT_DATA [] "" 0 0 (fun _ => false) "normal"
    false none "" "" (fun _ => false) (fun _ => 0) 0 0 false 0 (by norm_num [DEFAULT_DATA])
  exact ⟨h2.1, h2.2.1⟩

/-- C5: `weighted_random_choice` draws uniformly (via the random index) from
the multiset `weightedList` in which each priority video occurs
`PRIORITY_WEIGHT = 3` times and each other video once; for a non-empty video
list the result is always an element of the input list, and for the empty
list it is `None`. -/
theorem C5_weighted_random_choice_spec (videos : List Video) (pick i : Nat) (v : Video)
    (hne : videos ≠ []) (hi : i < (weightedList videos).length) :
    (∃ w, weighted_random_choice videos pick = some w ∧ w ∈ videos) ∧
    (weightedList videos).count v =
      (if v.type = "priority" then PRIORITY_WEIGHT else 1) * videos.count v ∧
    weighted_random_choice [] pick = none ∧
    weighted_random_choice videos i = (weightedList videos)[i]? := by
  have hwne : weightedList videos ≠ [] := weightedList_ne_nil videos hne
  have hemp : (weightedList videos).isEmpty = false := by
    simpa [List.isEmpty_iff] using hwne
  refine ⟨?_, weightedList_count videos v, rfl, ?_⟩
  · have hlen : 0 < (weightedList videos).length := List.length_pos.mpr hwne
    have hidx : pick % (weightedList videos).length < (weightedList videos).length :=
      Nat.mod_lt pick hlen
    refine ⟨(weightedList videos).get ⟨pick % (weightedList videos).length, hidx⟩, ?_, ?_⟩
    · simp [weighted_random_choice, hemp, List.getElem?_eq_getElem hidx]
    · exact (weightedList_mem videos _).mp (List.get_mem _ _ hidx)
  · simp [weighted_random_choice, hemp, Nat.mod_eq_of_lt hi]

/-- Witness for C5 at a two-element list (one normal, one priority). -/
theorem C5_weighted_random_choice_spec_witness :
    (∃ w, weighted_random_choice
        [⟨"vid1", "videos/vid1.mp4", "normal"⟩, ⟨"vid2", "videos/vid2.mp4", "priority"⟩]
        0 = some w ∧
      w ∈ [⟨"vid1", "videos/vid1.mp4", "normal"⟩,
        (⟨"vid2", "videos/vid2.mp4", "priority"⟩ : Video)]) ∧
    (weightedList [⟨"vid1", "videos/vid1.mp4", "normal"⟩,
        ⟨"vid2", "videos/vid2.mp4", "priority"⟩]).count
      ⟨"vid2", "videos/vid2.mp4", "priority"⟩ =
      (if (Video.mk "vid2" "videos/vid2.mp4" "priority").type = "priority"
        then PRIORITY_WEIGHT else 1) *
      ([⟨"vid1", "videos/vid1.mp4", "normal"⟩,
        (⟨"vid2", "videos/vid2.mp4", "priority"⟩ : Video)].count
          ⟨"vid2", "videos/vid2.mp4", "priority"⟩) := by
  have h := C5_weighted_random_choice_spec
    [⟨"vid1", "videos/vid1.mp4", "normal"⟩, ⟨"vid2", "videos/vid2.mp4", "priority"⟩]
    0 0 ⟨"vid2", "videos/vid2.mp4", "priority"⟩ (by simp) (by decide)
  exact ⟨h.1, h.2.1⟩

/-- C6: for a stored code, `remove_cmd` attempts to delete the video's file
(whenever it exists on disk) and unconditionally removes every entry with that
code from the videos list — so no entry with the code survives even if the
deletion is skipped or fails; for an unknown code it replies not-found and
changes nothing. -/
theorem C6_remove_deletes_file_and_entry (d : BotData) (a : String)
    (fsExists : String → Bool) (v : Video)
    (hfind : find_video_by_code d.videos (pyStrip a) = some v) :
    (∀ x ∈ (remove_cmd d [a] fsExists).1.videos, x.code ≠ pyStrip a) ∧
    (remove_cmd d [a] fsExists).1 =
      { d with videos := d.videos.filter (fun x => x.code != pyStrip a) } ∧
    (remove_cmd d [a] fsExists).2.1 = (if fsExists v.path then [v.path] else []) ∧
    (remove_cmd d [a] fsExists).2.2 = "Removed video " ++ pyStrip a ++ "." ∧
    (∀ (e : BotData) (b : String), find_video_by_code e.videos (pyStrip b) = none →
      remove_cmd e [b] fsExists = (e, [], "Video " ++ pyStrip b ++ " not found.")) := by
  refine ⟨?_, ?_, ?_, ?_, ?_⟩
  · intro x hx
    simp only [remove_cmd, hfind] at hx
    have := List.of_mem_filter hx
    simpa using this
  · simp [remove_cmd, hfind]
  · simp [remove_cmd, hfind]
  · simp [remove_cmd, hfind]
  · intro e b hb
    simp [remove_cmd, hb]

/-- Witness for C6: removing `vid1` from a one-video state with the file
present on disk. -/
theorem C6_remove_deletes_file_and_entry_witness :
    (∀ x ∈ (remove_cmd
        { DEFAULT_DATA with videos := [⟨"vid1", "videos/vid1.mp4", "normal"⟩] }
        ["vid1"] (fun _ => true)).1.videos, x.code ≠ pyStrip "vid1") ∧
    (remove_cmd { DEFAULT_DATA with videos := [⟨"vid1", "videos/vid1.mp4", "normal"⟩] }
        ["vid1"] (fun _ => true)).2.1 =
      (if (fun (_ : String) => true) "videos/vid1.mp4" then ["videos/vid1.mp4"] else []) := by
  have h := C6_remove_deletes_file_and_entry
    { DEFAULT_DATA with videos := [⟨"vid1", "videos/vid1.mp4", "normal"⟩] }
    "vid1" (fun _ => true) ⟨"vid1", "videos/vid1.mp4", "normal"⟩ (by decide)
  exact ⟨h.1, h.2.2.1⟩

/-- C7: failure handling is sleep-and-retry.  If every scheduled upload in an
iteration fails, the scheduled list (all statuses still "Pending" where they
were) and `last_post` are unchanged and the worker slept
`INSTAPOST_SLEEP_AFTER_FAIL = 30` seconds per failed attempt, so the same
posts are retried on a later iteration; and a failed queue post leaves
`last_post` (and everything else) unchanged except that
`next_queue_post_time` becomes 60 seconds after the post-sleep clock, with a
30-second sleep recorded. -/
theorem C7_upload_failure_sleep_and_retry (d e : BotData) (now : Int)
    (succ : Nat → Bool) (tstamp : Nat → Int) (pick : Nat) (rint : Int) (now2 : Int)
    (t : Int) (c : Video)
    (hfail : ∀ i, succ i = false)
    (hrun : e.is_running = true) (hnext : e.next_queue_post_time = some t)
    (hdue : t ≤ now) (hchoice : weighted_random_choice e.videos pick = some c) :
    (schedPhase d now succ tstamp).scheduled = d.scheduled ∧
    (schedPhase d now succ tstamp).last_post = d.last_post ∧
    (schedPhase d now succ tstamp).sleeps =
      List.replicate (schedPhase d now succ tstamp).uploads.length
        INSTAPOST_SLEEP_AFTER_FAIL ∧
    queuePhase e now pick rint false now2 =
      ({ e with next_queue_post_time := some (now2 + 60) },
        [⟨c.path, e.caption⟩], [INSTAPOST_SLEEP_AFTER_FAIL]) := by
  obtain ⟨nu, h1, h2, h3, h4⟩ := schedAux_no_success d.caption now succ tstamp hfail
    (List.range d.scheduled.length) d.scheduled d.last_post [] []
  refine ⟨h1, h2, ?_, ?_⟩
  · show (schedPhase d now succ tstamp).sleeps = _
    unfold schedPhase
    rw [h4, h3]
    simp
  · simp [queuePhase, hrun, hnext, hdue, hchoice]

/-- Witness for C7: one pending, due scheduled post whose upload fails, and a
running state whose due queue post fails. -/
theorem C7_upload_failure_sleep_and_retry_witness :
    (schedPhase { DEFAULT_DATA with
        scheduled := [⟨"shd1", "videos/shd1.mp4", 100, "", "Pending"⟩] }
      150 (fun _ => false) (fun _ => 151)).scheduled =
      [⟨"shd1", "videos/shd1.mp4", 100, "", "Pending"⟩] ∧
    queuePhase { DEFAULT_DATA with
        is_running := true
        next_queue_post_time := some 100
        videos := [⟨"vid1", "videos/vid1.mp4", "normal"⟩] }
      150 0 500 false 180 =
      ({ DEFAULT_DATA with
          is_running := true
          next_queue_post_time := some (180 + 60)
          videos := [⟨"vid1", "videos/vid1.mp4", "normal"⟩] },
        [⟨"videos/vid1.mp4", ""⟩], [INSTAPOST_SLEEP_AFTER_FAIL]) := by
  have h := C7_upload_failure_sleep_and_retry
    { DEFAULT_DATA with
        scheduled := [⟨"shd1", "videos/shd1.mp4", 100, "", "Pending"⟩] }
    { DEFAULT_DATA with
        is_running := true
        next_queue_post_time := some 100
        videos := [⟨"vid1", "videos/vid1.mp4", "normal"⟩] }
    150 (fun _ => false) (fun _ => 151) 0 500 180 100
    ⟨"vid1", "videos/vid1.mp4", "normal"⟩
    (fun _ => rfl) rfl rfl (by norm_num) (by decide)
  exact ⟨h.1, h.2.2.2⟩


/-- C9: every upload performed by the scheduled-posts phase uses the per-post
caption when the stored caption is non-empty and falls back to the state's
global caption when the stored caption is the empty string
(`s.get("caption") or data.get("caption", "")`), and targets an entry that was
Pending with its time arrived. -/
theorem C9_scheduled_caption_fallback (d : BotData) (now : Int) (succ : Nat → Bool)
    (tstamp : Nat → Int) (u : Upload)
    (hu : u ∈ (schedPhase d now succ tstamp).uploads) :
    ∃ s ∈ d.scheduled, s.status = "Pending" ∧ s.datetime ≤ now ∧
      u.path = s.video_path ∧
      u.caption = (if s.caption = "" then d.caption else s.caption) := by
  have h := schedAux_uploads d.caption now succ tstamp d.scheduled
    (List.range d.scheduled.length) d.scheduled d.last_post [] []
    (fun s2 hs2 => ⟨s2, hs2, Or.inl rfl⟩) u hu
  rcases h with h | ⟨s, hs, h1, h2, h3⟩
  · exact absurd h (List.not_mem_nil u)
  · exact ⟨s, hs, h1, h2, by rw [h3], by rw [h3]⟩

/-- Witness for C9: two due pending posts, one with an empty stored caption
(falls back to the global caption "GLOBAL") and one with its own caption. -/
theorem C9_scheduled_caption_fallback_witness :
    ∃ s ∈ ({ DEFAULT_DATA with
        caption := "GLOBAL"
        scheduled := [⟨"shd1", "videos/shd1.mp4", 100, "", "Pending"⟩,
          ⟨"shd2", "videos/shd2.mp4", 100, "mine", "Pending"⟩] } : BotData).scheduled,
      s.status = "Pending" ∧ s.datetime ≤ 150 ∧
      ("videos/shd1.mp4" : String) = s.video_path ∧
      ("GLOBAL" : String) = (if s.caption = "" then
        ({ DEFAULT_DATA with
            caption := "GLOBAL"
            scheduled := [⟨"shd1", "videos/shd1.mp4", 100, "", "Pending"⟩,
              ⟨"shd2", "videos/shd2.mp4", 100, "mine", "Pending"⟩] } : BotData).caption
        else s.caption) :=
  C9_scheduled_caption_fallback
    { DEFAULT_DATA with
        caption := "GLOBAL"
        scheduled := [⟨"shd1", "videos/shd1.mp4", 100, "", "Pending"⟩,
          ⟨"shd2", "videos/shd2.mp4", 100, "mine", "Pending"⟩] }
    150 (fun _ => true) (fun _ => 151) ⟨"videos/shd1.mp4", "GLOBAL"⟩ (by decide)

/-- C3: `generate_vid_code` returns `"vid<N>"` for the smallest positive `N`
whose code is not already stored (so the code is fresh), `generate_shd_code`
likewise returns the smallest fresh `"shd<N>"`, and consequently the two
operations that append entries under a generated code —
`receive_video_for_add` and `schedule_receive_time` — preserve uniqueness of
the stored codes. -/
theorem C3_generated_codes_fresh_minimal_unique (videos : List Video)
    (scheduled : List ScheduledPost) (d : BotData) (add_type : String) (dt : Int)
    (vp cap : String)
    (hv : (d.videos.map Video.code).Nodup)
    (hs : (d.scheduled.map ScheduledPost.shd_code).Nodup) :
    (∃ N : Nat, 0 < N ∧ generate_vid_code videos = codeOf "vid" N ∧
      codeOf "vid" N ∉ videos.map Video.code ∧
      ∀ m : Nat, 0 < m → m < N → codeOf "vid" m ∈ videos.map Video.code) ∧
    (∃ N : Nat, 0 < N ∧ generate_shd_code scheduled = codeOf "shd" N ∧
      codeOf "shd" N ∉ scheduled.map ScheduledPost.shd_code ∧
      ∀ m : Nat, 0 < m → m < N → codeOf "shd" m ∈ scheduled.map ScheduledPost.shd_code) ∧
    ((receive_video_for_add d add_type true).1.videos.map Video.code).Nodup ∧
    ((schedule_receive_time d (some dt) vp cap).1.scheduled.map
      ScheduledPost.shd_code).Nodup := by
  refine ⟨?_, ?_, ?_, ?_⟩
  · obtain ⟨h0, hfr⟩ := freshNat_pos_and_fresh "vid" (videos.map Video.code)
    exact ⟨freshNat "vid" (videos.map Video.code), h0, rfl, hfr,
      fun m hm0 hmN => freshNat_min "vid" (videos.map Video.code) m hm0 hmN⟩
  · obtain ⟨h0, hfr⟩ := freshNat_pos_and_fresh "shd" (scheduled.map ScheduledPost.shd_code)
    exact ⟨freshNat "shd" (scheduled.map ScheduledPost.shd_code), h0, rfl, hfr,
      fun m hm0 hmN =>
        freshNat_min "shd" (scheduled.map ScheduledPost.shd_code) m hm0 hmN⟩
  · have hfr := (freshNat_pos_and_fresh "vid" (d.videos.map Video.code)).2
    simp [receive_video_for_add, List.nodup_append, hv, generate_vid_code]
    intro x hx hcode
    exact hfr (hcode ▸ List.mem_map_of_mem Video.code hx)
  · have hfr := (freshNat_pos_and_fresh "shd" (d.scheduled.map ScheduledPost.shd_code)).2
    simp [schedule_receive_time, List.nodup_append, hs, generate_shd_code]
    intro x hx hcode
    exact hfr (hcode ▸ List.mem_map_of_mem ScheduledPost.shd_code hx)

/-- Witness for C3: a three-video list with codes vid1, vid2, vid4 (the
generated code is the gap "vid3") and a default state to append into. -/
theorem C3_generated_codes_fresh_minimal_unique_witness :
    generate_vid_code [⟨"vid1", "videos/vid1.mp4", "normal"⟩,
      ⟨"vid2", "videos/vid2.mp4", "priority"⟩,
      ⟨"vid4", "videos/vid4.mp4", "normal"⟩] = "vid3" ∧
    (∃ N : Nat, 0 < N ∧
      generate_vid_code [⟨"vid1", "videos/vid1.mp4", "normal"⟩,
        ⟨"vid2", "videos/vid2.mp4", "priority"⟩,
        ⟨"vid4", "videos/vid4.mp4", "normal"⟩] = codeOf "vid" N ∧
      codeOf "vid" N ∉ [⟨"vid1", "videos/vid1.mp4", "normal"⟩,
        ⟨"vid2", "videos/vid2.mp4", "priority"⟩,
        (⟨"vid4", "videos/vid4.mp4", "normal"⟩ : Video)].map Video.code ∧
      ∀ m : Nat, 0 < m → m < N →
        codeOf "vid" m ∈ [⟨"vid1", "videos/vid1.mp4", "normal"⟩,
          ⟨"vid2", "videos/vid2.mp4", "priority"⟩,
          (⟨"vid4", "videos/vid4.mp4", "normal"⟩ : Video)].map Video.code) ∧
    ((receive_video_for_add DEFAULT_DATA "normal" true).1.videos.map Video.code).Nodup := by
  have h := C3_generated_codes_fresh_minimal_unique
    [⟨"vid1", "videos/vid1.mp4", "normal"⟩, ⟨"vid2", "videos/vid2.mp4", "priority"⟩,
      ⟨"vid4", "videos/vid4.mp4", "normal"⟩]
    [] DEFAULT_DATA "normal" 0 "videos/shd1.mp4" "" (by decide) (by decide)
  exact ⟨by decide, h.1, h.2.2.1⟩

/-- C2: under the code-uniqueness invariant, the background worker maps the
scheduled entry at index `j` either to itself or to itself with status
"Posted", and the result has status "Posted" precisely when it already was
"Posted" or it was "Pending", its target time had arrived, and the upload
succeeded; moreover no operation of the program turns a "Posted" status back
into "Pending": `schedule_receive_time` only appends a fresh "Pending" entry,
`removescheduled_cmd` only removes entries, and every other handler leaves
the scheduled list untouched. -/
theorem C2_status_pending_to_posted_only (d d2 : BotData) (now : Int)
    (succ : Nat → Bool) (tstamp : Nat → Int) (j : Nat) (s : ScheduledPost)
    (args : List String) (msgText : String) (now3 r : Int) (fsExists : String → Bool)
    (add_type : String) (downloadOk : Bool) (dtOpt : Option Int) (vp cap : String)
    (hnodup : (d.scheduled.map ScheduledPost.shd_code).Nodup)
    (hjs : d.scheduled[j]? = some s) :
    (∃ s2, (schedPhase d now succ tstamp).scheduled[j]? = some s2 ∧
      (s2 = s ∨ s2 = { s with status := "Posted" }) ∧
      (s2.status = "Posted" ↔
        (s.status = "Posted" ∨
          (s.status = "Pending" ∧ s.datetime ≤ now ∧ succ j = true)))) ∧
    ((schedule_receive_time d2 dtOpt vp cap).1.scheduled = d2.scheduled ∨
      ∃ e : ScheduledPost, e.status = "Pending" ∧
        (schedule_receive_time d2 dtOpt vp cap).1.scheduled = d2.scheduled ++ [e]) ∧
    (∀ x ∈ (removescheduled_cmd d2 args fsExists).1.scheduled, x ∈ d2.scheduled) ∧
    (settimer_cmd d2 args).1.scheduled = d2.scheduled ∧
    (startposting_cmd d2 now3 r).1.scheduled = d2.scheduled ∧
    (stopposting_cmd d2).1.scheduled = d2.scheduled ∧
    (setcaption_cmd d2 args msgText).1.scheduled = d2.scheduled ∧
    (removecaption_cmd d2).1.scheduled = d2.scheduled ∧
    (remove_cmd d2 args fsExists).1.scheduled = d2.scheduled ∧
    (removepriority_cmd d2 args).1.scheduled = d2.scheduled ∧
    (receive_video_for_add d2 add_type downloadOk).1.scheduled = d2.scheduled := by
  refine ⟨?_, ?_, ?_, ?_, ?_, ?_, ?_, ?_, ?_, ?_, ?_⟩
  · have hchar := schedPhase_getElem d now succ tstamp hnodup j s hjs
    refine ⟨postedIf (triggerB now succ d.scheduled j) s, hchar, ?_, ?_⟩
    · cases htr : triggerB now succ d.scheduled j
      · left; simp [postedIf]
      · right; simp [postedIf]
    · have htrig : triggerB now succ d.scheduled j =
          (s.status == "Pending" && decide (s.datetime ≤ now) && succ j) := by
        simp [triggerB, hjs]
      cases htr : (s.status == "Pending" && decide (s.datetime ≤ now) && succ j) with
      | true =>
        rw [htrig, htr]
        simp only [Bool.and_eq_true, beq_iff_eq, decide_eq_true_eq] at htr
        simp [postedIf, htr]
      | false =>
        rw [htrig, htr]
        simp only [postedIf, Bool.false_eq_true, if_false]
        constructor
        · exact Or.inl
        · rintro (h1 | ⟨hp, hd2, hsx⟩)
          · exact h1
          · exfalso
            rw [hp, hsx] at htr
            simp [hd2] at htr
  · rcases schedule_time_shape d2 dtOpt vp cap with h1 | ⟨e, he, h1⟩
    · left; rw [h1]
    · right; exact ⟨e, he, by rw [h1]⟩
  · intro x hx
    rcases removescheduled_shape d2 args fsExists with h1 | ⟨c, h1⟩
    · rw [h1] at hx; exact hx
    · rw [h1] at hx
      exact List.mem_of_mem_filter hx
  · rcases settimer_shape d2 args with h1 | ⟨mn, mx, _, _, h1⟩ <;> rw [h1]
  · rcases startposting_shape d2 now3 r with h1 | h1 <;> rw [h1]
  · rcases stopposting_shape d2 with h1 | h1 <;> rw [h1]
  · rcases setcaption_shape d2 args msgText with h1 | ⟨t, h1⟩ <;> rw [h1]
  · rw [removecaption_shape d2]
  · rcases remove_shape d2 args fsExists with h1 | ⟨c, h1⟩ <;> rw [h1]
  · rcases removepriority_shape d2 args with h1 | ⟨c, h1⟩ <;> rw [h1]
  · rcases receive_video_shape d2 add_type downloadOk with h1 | ⟨e, h1⟩ <;> rw [h1]

/-- Witness for C2: a due pending entry fired successfully next to an already
Posted entry. -/
theorem C2_status_pending_to_posted_only_witness :
    ∃ s2, (schedPhase { DEFAULT_DATA with
        scheduled := [⟨"shd1", "videos/shd1.mp4", 100, "", "Pending"⟩,
          ⟨"shd2", "videos/shd2.mp4", 50, "x", "Posted"⟩] }
      150 (fun _ => true) (fun _ => 151)).scheduled[0]? = some s2 ∧
      (s2 = ⟨"shd1", "videos/shd1.mp4", 100, "", "Pending"⟩ ∨
        s2 = { (⟨"shd1", "videos/shd1.mp4", 100, "", "Pending"⟩ : ScheduledPost) with
          status := "Posted" }) ∧
      (s2.status = "Posted" ↔
        ((⟨"shd1", "videos/shd1.mp4", 100, "", "Pending"⟩ : ScheduledPost).status
            = "Posted" ∨
          ((⟨"shd1", "videos/shd1.mp4", 100, "", "Pending"⟩ : ScheduledPost).status
              = "Pending" ∧
            (⟨"shd1", "videos/shd1.mp4", 100, "", "Pending"⟩ :
              ScheduledPost).datetime ≤ 150 ∧
            (fun (_ : Nat) => true) 0 = true))) :=
  (C2_status_pending_to_posted_only
    { DEFAULT_DATA with
        scheduled := [⟨"shd1", "videos/shd1.mp4", 100, "", "Pending"⟩,
          ⟨"shd2", "videos/shd2.mp4", 50, "x", "Posted"⟩] }
    DEFAULT_DATA 150 (fun _ => true) (fun _ => 151) 0
    ⟨"shd1", "videos/shd1.mp4", 100, "", "Pending"⟩
    [] "" 0 0 (fun _ => false) "normal" false none "" ""
    (by decide) (by decide)).1
